import Mathlib

/-!
A verification development for the rstfmt rendering engine
(`rstfmt/rstfmt.py`).  The Python source is shallowly embedded below:
pure functions become Lean functions, the node dispatcher becomes a
recursive function over an inductive document tree, and Python runtime
errors (IndexError / TypeError) are modelled by `Option`-valued results.
-/

namespace Rstfmt

/-- An output fragment of a formatter: either a plain string (Python `str`)
or an inline-markup wrapper (Python class `inline_markup`). -/
inductive Item where
  | plain (s : String)
  | markup (s : String)
deriving DecidableEq, Repr

/-- Python `string.whitespace`, used for `space_chars` in the source. -/
def space_chars : List Char := [' ', '\t', '\n', '\r', '\x0b', '\x0c']

/-- Source constant `pre_markup_break_chars = space_chars | set("-:/'\"<([{")`. -/
def pre_markup_break_chars : List Char :=
  space_chars ++ ['-', ':', '/', '\'', '"', '<', '(', '[', '{']

/-- Source constant `post_markup_break_chars = space_chars | set("-.,:;!?\\/'\")]}>")`. -/
def post_markup_break_chars : List Char :=
  space_chars ++ ['-', '.', ',', ':', ';', '!', '?', '\\', '/', '\'', '"', ')', ']', '}', '>']

/-- Source constant `section_chars = '=-^"~+'`, the title underline characters. -/
def section_chars : List Char := ['=', '-', '^', '"', '~', '+']

def isPySpace (c : Char) : Bool := space_chars.contains c

/-- Helper for `pySplit`: accumulates the current word (reversed). -/
def pySplitAux : List Char → List Char → List String
  | [], cur => if cur.isEmpty then [] else [String.mk cur.reverse]
  | c :: rest, cur =>
    if isPySpace c then
      if cur.isEmpty then pySplitAux rest []
      else String.mk cur.reverse :: pySplitAux rest []
    else pySplitAux rest (c :: cur)

/-- Python `str.split()` with no argument: split on whitespace runs,
dropping empty pieces. -/
def pySplit (s : String) : List String := pySplitAux s.toList []

/-- The `word_info` namedtuple of the source. -/
structure WordInfo where
  text : String
  in_markup : Bool
  start_space : Bool
  end_space : Bool
  start_punct : Bool
  end_punct : Bool
deriving DecidableEq, Repr

def WordInfo.setStartSpace (w : WordInfo) : WordInfo :=
  ⟨w.text, w.in_markup, true, w.end_space, w.start_punct, w.end_punct⟩

def WordInfo.setEndSpace (w : WordInfo) : WordInfo :=
  ⟨w.text, w.in_markup, w.start_space, true, w.start_punct, w.end_punct⟩

def WordInfo.setStartPunct (w : WordInfo) : WordInfo :=
  ⟨w.text, w.in_markup, w.start_space, w.end_space, true, w.end_punct⟩

def WordInfo.setEndPunct (w : WordInfo) : WordInfo :=
  ⟨w.text, w.in_markup, w.start_space, w.end_space, w.start_punct, true⟩

/-- Apply `f` to the first element of a list (`new_words[0] = ..._replace(...)`). -/
def setFirst (f : WordInfo → WordInfo) : List WordInfo → List WordInfo
  | [] => []
  | w :: ws => f w :: ws

/-- Apply `f` to the last element of a list (`new_words[-1] = ..._replace(...)`). -/
def setLast (f : WordInfo → WordInfo) : List WordInfo → List WordInfo
  | [] => []
  | [w] => [f w]
  | w :: x :: ws => w :: setLast f (x :: ws)

/-- Update `if item[0] in space_chars: new_words[0] = ..._replace(start_space=True)`. -/
def stageStartSpace (c0 : Char) (ws : List WordInfo) : List WordInfo :=
  if isPySpace c0 then setFirst WordInfo.setStartSpace ws else ws

/-- Update `if item[-1] in space_chars: new_words[-1] = ..._replace(end_space=True)`. -/
def stageEndSpace (cN : Char) (ws : List WordInfo) : List WordInfo :=
  if isPySpace cN then setLast WordInfo.setEndSpace ws else ws

/-- Update `if item[0] in post_markup_break_chars: ..._replace(start_punct=True)`. -/
def stageStartPunct (c0 : Char) (ws : List WordInfo) : List WordInfo :=
  if post_markup_break_chars.contains c0 then setFirst WordInfo.setStartPunct ws else ws

/-- Update `if item[-1] in pre_markup_break_chars: ..._replace(end_punct=True)`. -/
def stageEndPunct (cN : Char) (ws : List WordInfo) : List WordInfo :=
  if pre_markup_break_chars.contains cN then setLast WordInfo.setEndPunct ws else ws

/-- The four sequential boundary-flag updates of `split_words`
(lines 252-259 of the source), in source order. -/
def applyBoundaryFlags (c0 cN : Char) (ws : List WordInfo) : List WordInfo :=
  stageEndPunct cN (stageStartPunct c0 (stageEndSpace cN (stageStartSpace c0 ws)))

/-- The source's `split_words`: cut an item into whitespace-delimited
words, recording markup membership and boundary flags. -/
def split_words (item : Item) : List WordInfo :=
  match item with
  | .plain s =>
    if s = "" then [⟨s, false, false, false, false, true⟩]
    else
      let ws := (pySplit s).map (fun t => (⟨t, false, false, false, false, false⟩ : WordInfo))
      let ws := if ws = [] then [⟨"", false, true, true, true, true⟩] else ws
      applyBoundaryFlags (s.toList.headD ' ') (s.toList.getLastD ' ') ws
  | .markup t =>
    (pySplit t).map (fun u => (⟨u, true, false, false, false, false⟩ : WordInfo))

/-- One step of the span-merging loop in `wrap_text` (lines 272-290 of the
source).  The accumulator holds the processed words in reverse order, so
its head is `words[-1]`. -/
def mergeStep (acc : List WordInfo) (word : WordInfo) : List WordInfo :=
  match acc with
  | [] => [word]
  | last :: rest =>
    if !last.in_markup && word.in_markup && !last.end_space then
      ⟨last.text ++ (if last.end_punct then "" else "\\ ") ++ word.text,
        true, false, false, false, false⟩ :: rest
    else if last.in_markup && !word.in_markup && !word.start_space then
      ⟨last.text ++ (if word.start_punct then "" else "\\ ") ++ word.text,
        false, false, word.end_space, word.start_punct, word.end_punct⟩ :: rest
    else
      word :: last :: rest

/-- The merged, non-empty word texts computed by `wrap_text` before
line packing: split, merge adjacent markup/non-markup words, drop
empties.  The fold starts from the sentinel word of line 271. -/
def merged_words (items : List Item) : List String :=
  let raw := (items.map split_words).flatten
  let ws := (raw.foldl mergeStep [⟨"", false, true, true, true, true⟩]).reverse
  (ws.map WordInfo.text).filter (fun t => t ≠ "")

/-- Python `sep.join(l)`. -/
def joinWith (sep : String) : List String → String
  | [] => ""
  | [s] => s
  | s :: t :: rest => s ++ sep ++ joinWith sep (t :: rest)

/-- Python `" ".join(...)`. -/
def joinWords (ws : List String) : String := joinWith " " ws

/-- The greedy packing loop of `wrap_text` (lines 298-309): `buf` is the
current line's words, `n` its rendered length. -/
def wrapLinesGo (width : Nat) : List String → List String → Nat → List String
  | [], buf, _ => if buf = [] then [] else [joinWords buf]
  | w :: rest, buf, n =>
    let n2 := n + (if buf = [] then 0 else 1) + w.length
    if buf ≠ [] ∧ n2 > width then
      joinWords buf :: wrapLinesGo width rest [w] w.length
    else
      wrapLinesGo width rest (buf ++ [w]) n2

/-- The source's `wrap_text`: merge spans into words, then either join
them all on one line (unbounded width) or pack greedily. -/
def wrap_text (width : Option Nat) (items : List Item) : List String :=
  let ws := merged_words items
  match width with
  | none => [joinWords ws]
  | some w => wrapLinesGo w ws [] 0

/-- Python `" " * n`. -/
def spacesStr (n : Nat) : String := String.mk (List.replicate n ' ')

/-- The source's `with_spaces`: prefix `n` spaces to each non-empty line,
pass empty lines through (`yield s + l if l else l`). -/
def with_spaces (n : Nat) (lines : List String) : List String :=
  lines.map (fun l => if l = "" then l else spacesStr n ++ l)

/-- The source's `chain_intersperse`: concatenate blocks with a separator
element between consecutive blocks. -/
def chain_intersperse (sep : α) : List (List α) → List α
  | [] => []
  | [x] => x
  | x :: y :: rest => x ++ sep :: chain_intersperse sep (y :: rest)

/-- The source's `enum_first`: tag the first element with `true`. -/
def enum_first : List α → List (Bool × α)
  | [] => []
  | x :: xs => (true, x) :: xs.map (fun y => (false, y))

/-- The `FormatContext` namedtuple. -/
structure FormatContext where
  section_depth : Nat
  width : Option Nat
  bullet : Option String
  colwidths : Option (List Nat)
deriving DecidableEq, Repr

/-- Method `FormatContext.indent`: unbounded width is untouched, otherwise the
width shrinks by `n`, clamped to a minimum of 1. -/
def FormatContext.indent (ctx : FormatContext) (n : Nat) : FormatContext :=
  match ctx.width with
  | none => ctx
  | some w => ⟨ctx.section_depth, some (max 1 (w - n)), ctx.bullet, ctx.colwidths⟩

def FormatContext.in_section (ctx : FormatContext) : FormatContext :=
  ⟨ctx.section_depth + 1, ctx.width, ctx.bullet, ctx.colwidths⟩

def FormatContext.with_width (ctx : FormatContext) (w : Option Nat) : FormatContext :=
  ⟨ctx.section_depth, w, ctx.bullet, ctx.colwidths⟩

def FormatContext.with_bullet (ctx : FormatContext) (b : Option String) : FormatContext :=
  ⟨ctx.section_depth, ctx.width, b, ctx.colwidths⟩

def FormatContext.with_colwidths (ctx : FormatContext) (c : Option (List Nat)) : FormatContext :=
  ⟨ctx.section_depth, ctx.width, ctx.bullet, c⟩

/-- Python `str.ljust(w)`. -/
def ljust (w : Nat) (s : String) : String := s ++ spacesStr (w - s.length)

/-- Number of occurrences of `c` in `s`. -/
def countChar (c : Char) (s : String) : Nat := s.data.count c

/-- A table border line: `"+" + "+".join(ch * w for w in ws) + "+"`
(the source builds these with `ch = '-'` for `sep` and `ch = '='` for
the header separator). -/
def borderSep (ch : Char) (ws : List Nat) : String :=
  "+" ++ joinWith "+" (ws.map (fun w => String.mk (List.replicate w ch))) ++ "+"

/-- One output line of `Formatters.row`:
`"|" + "|".join(" " + (line or "").ljust(w - 2) + " " ...) + "|"`. -/
def rowLine (ws : List Nat) (group : List String) : String :=
  "|" ++ joinWith "|" ((group.zip ws).map (fun p => " " ++ ljust (p.2 - 2) p.1 ++ " ")) ++ "|"

def maxLen (lss : List (List String)) : Nat := lss.foldl (fun m l => max m l.length) 0

/-- Python `itertools.zip_longest(*all_lines)` combined with the `(line or "")`
defaulting of `Formatters.row`: the `j`-th group holds each cell's `j`-th
line, empty when the cell is shorter. -/
def zipLongestDefault (lss : List (List String)) : List (List String) :=
  (List.range (maxLen lss)).map (fun j => lss.map (fun ls => ls.getD j ""))

/-- Python string indexing, including negative indices; `none` models an
`IndexError`. -/
def pyIndex (l : List Char) (i : Int) : Option Char :=
  if 0 ≤ i then l.get? i.toNat
  else if 0 ≤ (l.length : Int) + i then l.get? ((l.length : Int) + i).toNat
  else none

/-- The document tree.  Attributes relevant to formatting are inlined as
constructor fields (`refuri`, the preprocessed `target` back-reference,
`anonymous`, `colwidth`); `unknown` stands for any docutils node type
that has no formatter in the `Formatters` class. -/
inductive Node where
  | text (s : String)
  | paragraph (children : List Node)
  | title (children : List Node)
  | section (children : List Node)
  | document (children : List Node)
  | bullet_list (children : List Node)
  | enumerated_list (children : List Node)
  | list_item (children : List Node)
  | emphasis (children : List Node)
  | strong (children : List Node)
  | literal (children : List Node)
  | title_reference (children : List Node)
  | substitution_reference (children : List Node)
  | reference (refuri : Option String) (hasTarget : Bool) (anonymous : Bool) (children : List Node)
  | table (children : List Node)
  | tgroup (children : List Node)
  | colspec (colwidth : Nat)
  | thead (children : List Node)
  | tbody (children : List Node)
  | row (children : List Node)
  | entry (children : List Node)
  | unknown (name : String) (children : List Node)

/-- Accessor `node.children` (every docutils element carries a child list; `Text`
and `colspec` leaves have none that formatting visits). -/
def Node.children : Node → List Node
  | .text _ => []
  | .paragraph cs => cs
  | .title cs => cs
  | .section cs => cs
  | .document cs => cs
  | .bullet_list cs => cs
  | .enumerated_list cs => cs
  | .list_item cs => cs
  | .emphasis cs => cs
  | .strong cs => cs
  | .literal cs => cs
  | .title_reference cs => cs
  | .substitution_reference cs => cs
  | .reference _ _ _ cs => cs
  | .table cs => cs
  | .tgroup cs => cs
  | .colspec _ => []
  | .thead cs => cs
  | .tbody cs => cs
  | .row cs => cs
  | .entry cs => cs
  | .unknown _ cs => cs

theorem Node.children_sizeOf_le (n : Node) : sizeOf n.children ≤ sizeOf n := by
  cases n <;> simp [Node.children]

/-- Comprehension `[c.attributes["colwidth"] for c in node.children if isinstance(c, colspec)]`. -/
def colwidthsOf (cs : List Node) : List Nat :=
  cs.filterMap (fun c => match c with | .colspec w => some w | _ => none)

/-- Conversion of an output item to a `str` where the source applies a
string operation to it; an `inline_markup` there raises a `TypeError`,
modelled by `none`. -/
def itemStr : Item → Option String
  | .plain s => some s
  | .markup _ => none

/-- Python `"".join(...)` over formatter output, strict in non-`str` items. -/
def strJoinItems (items : List Item) : Option String :=
  (items.mapM itemStr).map (fun l => String.join l)

/-- Python `str.upper()` (ASCII). -/
def pyUpper (s : String) : String := String.mk (s.data.map Char.toUpper)

/-- The dispatch-miss placeholder of `fmt`:
`"\x1b[35m{}\x1b[m".format(type(node).__name__.upper())`. -/
def dispatchMiss (name : String) : List Item :=
  [.plain ("\x1b[35m" ++ pyUpper name ++ "\x1b[m")]

/-- Names that have formatting rules in the `Formatters` class. -/
def formatterNames : List String :=
  ["substitution_reference", "emphasis", "strong", "literal", "title_reference",
   "bullet_list", "enumerated_list", "list_item", "term", "definition",
   "definition_list_item", "definition_list", "paragraph", "title", "block_quote",
   "directive", "section", "document", "row", "tbody", "thead", "tgroup", "table",
   "Text", "reference", "role", "inline", "target", "comment", "note", "warning",
   "hint", "image", "literal_block"]

/-- Membership in the character class `[-_.:+a-zA-Z]` of the reference
formatter's `re.match`. -/
def refNameClassChar (c : Char) : Bool :=
  c = '-' || c = '_' || c = '.' || c = ':' || c = '+' ||
    ('a' ≤ c && c ≤ 'z') || ('A' ≤ c && c ≤ 'Z')

/-- Regex `re.match("^[-_.:+a-zA-Z]+$", title)`: non-empty and wholly in class. -/
def isRefNameWord (s : String) : Bool :=
  !s.toList.isEmpty && s.toList.all refNameClassChar

def refPunctChar (c : Char) : Bool :=
  c = '-' || c = '_' || c = '.' || c = ':' || c = '+'

/-- Regex `re.search("[-_.:+][-_.:+]", title)`: two adjacent class characters. -/
def hasAdjacentRefPunct : List Char → Bool
  | c1 :: c2 :: rest => (refPunctChar c1 && refPunctChar c2) || hasAdjacentRefPunct (c2 :: rest)
  | _ => false

mutual

/-- The node dispatcher `fmt` together with the per-type rules of the
`Formatters` class.  Output is the (eagerly collected) sequence of items
the Python generator yields; `none` models an uncaught runtime error
(IndexError on `section_chars`, TypeError on `None` context fields or on
string operations applied to `inline_markup`). -/
def fmt (node : Node) (ctx : FormatContext) : Option (List Item) :=
  match node with
  | .text s => some [.plain s]
  | .substitution_reference cs => do
      let s ← strJoinItems (← fmtEach cs ctx).flatten
      pure [.markup ("|" ++ s ++ "|")]
  | .emphasis cs => do
      let s ← strJoinItems (← fmtEach cs ctx).flatten
      pure [.markup ("*" ++ s ++ "*")]
  | .strong cs => do
      let s ← strJoinItems (← fmtEach cs ctx).flatten
      pure [.markup ("**" ++ s ++ "**")]
  | .literal cs => do
      let s ← strJoinItems (← fmtEach cs ctx).flatten
      pure [.markup ("``" ++ s ++ "``")]
  | .title_reference cs => do
      let s ← strJoinItems (← fmtEach cs ctx).flatten
      pure [.markup ("`" ++ s ++ "`")]
  | .bullet_list cs =>
      (fmtEach cs (ctx.with_bullet (some "- "))).map (chain_intersperse (.plain ""))
  | .enumerated_list cs =>
      (fmtEach cs (ctx.with_bullet (some "#."))).map (chain_intersperse (.plain ""))
  | .list_item cs => do
      let bullet ← ctx.bullet
      let w := bullet.length + 1
      let b := bullet ++ " "
      let s := spacesStr w
      let itemss ← fmtEach cs (ctx.indent w)
      let lines ← (chain_intersperse (Item.plain "") itemss).mapM itemStr
      pure ((enum_first lines).map (fun p =>
        .plain ((if p.2 ≠ "" then (if p.1 then b else s) else "") ++ p.2)))
  | .paragraph cs => do
      let itemss ← fmtEach cs ctx
      pure ((wrap_text ctx.width itemss.flatten).map Item.plain)
  | .title cs => do
      let itemss ← fmtEach cs ctx
      let text := joinWords (wrap_text (some 0) itemss.flatten)
      let ch ← pyIndex section_chars ((ctx.section_depth : Int) - 1)
      pure [.plain text, .plain (String.mk (List.replicate text.length ch))]
  | .section cs =>
      (fmtEach cs ctx.in_section).map (chain_intersperse (.plain ""))
  | .document cs =>
      (fmtEach cs ctx).map (chain_intersperse (.plain ""))
  | .row cs => do
      let ws ← ctx.colwidths
      let cells ← fmtCells cs ws ctx
      pure ((zipLongestDefault cells).map (fun g => .plain (rowLine ws g)))
  | .tbody cs => do
      let ws ← ctx.colwidths
      let itemss ← fmtEach cs ctx
      pure (chain_intersperse (.plain (borderSep '-' ws)) itemss)
  | .thead cs => do
      let ws ← ctx.colwidths
      let itemss ← fmtEach cs ctx
      pure (chain_intersperse (.plain (borderSep '-' ws)) itemss)
  | .tgroup cs =>
      let ws := colwidthsOf cs
      let ctx2 := ctx.with_colwidths (some ws)
      (fmtTGroupBody cs ws ctx2).map (fun body => .plain (borderSep '-' ws) :: body)
  | .table cs =>
      (fmtEach cs ctx).map (chain_intersperse (.plain ""))
  | .reference refuri tgt anon cs => do
      let itemss ← fmtEach cs ctx
      let title := joinWords (wrap_text (some 0) itemss.flatten)
      let anonymous := match refuri with
        | some _ => !tgt
        | none => anon
      let suffix := if anonymous then "__" else "_"
      match refuri with
      | some uri =>
        if uri = title ∨ uri = "mailto:" ++ title then pure [.markup title]
        else pure [.markup ("`" ++ title ++ " <" ++ uri ++ ">`" ++ suffix)]
      | none =>
        let single := (isRefNameWord title && !(hasAdjacentRefPunct title.toList))
          || (match cs with | [.substitution_reference _] => true | _ => false)
        let t2 := if single then title else "`" ++ title ++ "`"
        pure [.markup (t2 ++ suffix)]
  | .entry _ => some (dispatchMiss "entry")
  | .colspec _ => some (dispatchMiss "colspec")
  | .unknown name _ => some (dispatchMiss name)
termination_by sizeOf node
decreasing_by all_goals simp_wf

/-- Helper `fmt_children`: format every child with the same context, collecting
the per-child item lists. -/
def fmtEach (cs : List Node) (ctx : FormatContext) : Option (List (List Item)) :=
  match cs with
  | [] => some []
  | c :: rest => do pure ((← fmt c ctx) :: (← fmtEach rest ctx))
termination_by sizeOf cs
decreasing_by
  all_goals simp_wf
  all_goals omega

/-- The cell pipeline of `Formatters.row`: for each `(entry, w)` pair of
`zip(node.children, ctx.colwidths)`, format the entry's children at
width `w - 2` and flatten them with blank separators into the cell's
line list. -/
def fmtCells (entries : List Node) (ws : List Nat) (ctx : FormatContext) :
    Option (List (List String)) :=
  match entries, ws with
  | entry :: es, w :: rest => do
      let itemss ← fmtEach entry.children (ctx.with_width (some (w - 2)))
      let lines ← (chain_intersperse (Item.plain "") itemss).mapM itemStr
      pure (lines :: (← fmtCells es rest ctx))
  | _, _ => some []
termination_by sizeOf entries
decreasing_by
  all_goals simp_wf
  all_goals first
    | omega
    | (have h := Node.children_sizeOf_le entry; omega)

/-- The child loop of `Formatters.tgroup`: skip `colspec` children, emit
`thead`/`tbody` blocks followed by their separator line, ignore anything
else. -/
def fmtTGroupBody (cs : List Node) (ws : List Nat) (ctx : FormatContext) :
    Option (List Item) :=
  match cs with
  | [] => some []
  | c :: rest => do
      let here ← (match c with
        | .colspec _ => some ([] : List Item)
        | .thead rows => (fmt (.thead rows) ctx).map (fun ls => ls ++ [.plain (borderSep '=' ws)])
        | .tbody rows => (fmt (.tbody rows) ctx).map (fun ls => ls ++ [.plain (borderSep '-' ws)])
        | _ => some ([] : List Item))
      pure (here ++ (← fmtTGroupBody rest ws ctx))
termination_by sizeOf cs
decreasing_by
  all_goals simp_wf
  all_goals omega

end

/-- Toplevel `format_node`: run `fmt` at the root context and join the resulting
lines with newlines. -/
def format_node (width : Option Nat) (node : Node) : Option String :=
  (fmt node ⟨0, width, none, none⟩).bind
    (fun items => (items.mapM itemStr).map (joinWith "\n"))

/-- The inline title text computed identically by `Formatters.title` and
`Formatters.reference`: `" ".join(wrap_text(0, chain(fmt_children(node, ctx))))`. -/
def titleJoin (cs : List Node) (ctx : FormatContext) : Option String :=
  (fmtEach cs ctx).map (fun itemss => joinWords (wrap_text (some 0) itemss.flatten))

/-- The line list a `list_item` decorates: children formatted under the
indented context, flattened with blank separators. -/
def listItemLines (cs : List Node) (ctx : FormatContext) (bullet : String) :
    Option (List String) := do
  let itemss ← fmtEach cs (ctx.indent (bullet.length + 1))
  (chain_intersperse (Item.plain "") itemss).mapM itemStr

def dummyWord : WordInfo := ⟨"", false, false, false, false, false⟩

/-- C8: `FormatContext.indent n` leaves an unbounded (`None`) width
unbounded and otherwise replaces the width by `max 1 (width - n)`,
keeping `section_depth`, `bullet` and `colwidths` unchanged; being a pure
function on an immutable structure, it cannot modify the original
context. -/
theorem context_indent_spec (c : FormatContext) (n : Nat) :
    ((c.indent n).width = match c.width with
      | none => none
      | some w => some (max 1 (w - n)))
    ∧ (c.indent n).section_depth = c.section_depth
    ∧ (c.indent n).bullet = c.bullet
    ∧ (c.indent n).colwidths = c.colwidths := by
  obtain ⟨d, w, b, cw⟩ := c
  cases w <;> simp [FormatContext.indent]

/-- C9: a node whose type name has no formatting rule in `Formatters`
does not make `fmt` fail: it renders the magenta diagnostic placeholder
line containing the (upper-cased) type name. -/
theorem unmapped_kind_placeholder (name : String) (cs : List Node) (ctx : FormatContext)
    (h : name ∉ formatterNames) :
    fmt (.unknown name cs) ctx
      = some [.plain ("\x1b[35m" ++ pyUpper name ++ "\x1b[m")] := by
  simp [fmt, dispatchMiss]

theorem unmapped_kind_placeholder_witness :
    fmt (.unknown "pending" []) ⟨0, none, none, none⟩
      = some [.plain "\x1b[35mPENDING\x1b[m"] := by
  have h := unmapped_kind_placeholder "pending" [] ⟨0, none, none, none⟩ (by decide)
  rw [h]
  decide

/-- C10: `with_spaces` prefixes its spaces only to non-empty lines, so an
empty input line passes through as the empty string and, when no
non-empty input line is all-whitespace, no output line is a non-empty
all-whitespace line. -/
theorem with_spaces_blank_passthrough (n : Nat) (lines : List String)
    (h : ∀ l ∈ lines, l ≠ "" → ∃ ch ∈ l.data, isPySpace ch = false) :
    with_spaces n lines = lines.map (fun l => if l = "" then "" else spacesStr n ++ l)
    ∧ ∀ l2 ∈ with_spaces n lines, l2 ≠ "" → ∃ ch ∈ l2.data, isPySpace ch = false := by
  constructor
  · unfold with_spaces
    apply List.map_congr_left
    intro l _
    by_cases he : l = "" <;> simp [he]
  · intro l2 hl2 hne
    unfold with_spaces at hl2
    obtain ⟨l, hl, hform⟩ := List.mem_map.1 hl2
    by_cases he : l = ""
    · rw [he] at hform; simp at hform; exact absurd hform.symm hne
    · obtain ⟨ch, hch, hsp⟩ := h l hl he
      rw [if_neg he] at hform
      refine ⟨ch, ?_, hsp⟩
      rw [← hform]
      simp [String.data_append]
      right
      exact hch

theorem with_spaces_blank_passthrough_witness :
    with_spaces 3 ["a", ""] = ["   a", ""]
    ∧ ∀ l2 ∈ with_spaces 3 ["a", ""], l2 ≠ "" → ∃ ch ∈ l2.data, isPySpace ch = false := by
  have h := with_spaces_blank_passthrough 3 ["a", ""] (by decide)
  exact ⟨by decide, h.2⟩

lemma joinWith_cons_cons (sep a b : String) (t : List String) :
    joinWith sep (a :: b :: t) = a ++ sep ++ joinWith sep (b :: t) := rfl

lemma joinWith_append_single (sep : String) :
    ∀ (l : List String) (w : String),
    (joinWith sep (l ++ [w])).length =
      (if l = [] then 0 else (joinWith sep l).length + sep.length) + w.length := by
  intro l
  induction l with
  | nil => intro w; simp [joinWith]
  | cons a t ih =>
    intro w
    cases t with
    | nil => simp [joinWith, String.length_append]
    | cons b t2 =>
      have h1 : ((a :: b :: t2) ++ [w]) = a :: b :: (t2 ++ [w]) := rfl
      rw [h1, joinWith_cons_cons]
      have h2 : (b :: (t2 ++ [w])) = (b :: t2) ++ [w] := rfl
      rw [String.length_append, String.length_append, h2, ih w]
      rw [joinWith_cons_cons]
      simp [String.length_append]
      omega

lemma wrapLinesGo_nil (width : Nat) (buf : List String) (n : Nat) :
    wrapLinesGo width [] buf n = if buf = [] then [] else [joinWords buf] := rfl

lemma wrapLinesGo_cons (width : Nat) (w : String) (rest buf : List String) (n : Nat) :
    wrapLinesGo width (w :: rest) buf n =
      if buf ≠ [] ∧ n + (if buf = [] then 0 else 1) + w.length > width then
        joinWords buf :: wrapLinesGo width rest [w] w.length
      else wrapLinesGo width rest (buf ++ [w]) (n + (if buf = [] then 0 else 1) + w.length) := rfl

lemma wrapLinesGo_bound (width : Nat) (ws : List String) :
    ∀ (rest buf : List String) (n : Nat),
      (∀ t ∈ buf, t ∈ ws) → (∀ t ∈ rest, t ∈ ws) →
      n = (joinWords buf).length →
      (2 ≤ buf.length → n ≤ width) →
      ∀ line ∈ wrapLinesGo width rest buf n, line.length ≤ width ∨ line ∈ ws := by
  intro rest
  induction rest with
  | nil =>
    intro buf n hbuf _ hn h2 line hline
    rw [wrapLinesGo_nil] at hline
    by_cases hb : buf = []
    · simp [hb] at hline
    · rw [if_neg hb] at hline
      simp at hline
      subst hline
      match buf, hb with
      | [t], _ =>
        right
        exact hbuf t (by simp)
      | t :: u :: more, _ =>
        left
        rw [← hn]
        exact h2 (by simp)
  | cons w rest ih =>
    intro buf n hbuf hrest hn h2 line hline
    rw [wrapLinesGo_cons] at hline
    by_cases hcond : buf ≠ [] ∧ n + (if buf = [] then 0 else 1) + w.length > width
    · rw [if_pos hcond] at hline
      rcases List.mem_cons.1 hline with hflush | hrec
      · subst hflush
        match buf, hcond.1 with
        | [t], _ =>
          right
          exact hbuf t (by simp)
        | t :: u :: more, _ =>
          left
          rw [← hn]
          exact h2 (by simp)
      · refine ih [w] w.length ?_ ?_ ?_ ?_ line hrec
        · intro t ht; simp at ht; subst ht; exact hrest _ (by simp)
        · intro t ht; exact hrest t (by simp [ht])
        · simp [joinWords, joinWith]
        · intro habs; simp at habs
    · rw [if_neg hcond] at hline
      refine ih (buf ++ [w]) _ ?_ ?_ ?_ ?_ line hline
      · intro t ht
        rcases List.mem_append.1 ht with h | h
        · exact hbuf t h
        · simp at h; subst h; exact hrest _ (by simp)
      · intro t ht; exact hrest t (by simp [ht])
      · rw [joinWords, joinWith_append_single]
        by_cases hb : buf = [] <;> simp [hb, hn, joinWords] <;> decide
      · intro hlen
        by_cases hb : buf = []
        · simp [hb] at hlen
        · push_neg at hcond
          have hgt := hcond hb
          rw [if_neg hb] at hgt
          simp at hlen
          rw [if_neg hb]
          omega

/-- C2: at any positive width, every line the word wrapper emits either
fits in the width or is a single merged token (emitted alone and never
split, so its own length may exceed the width); and with a non-empty
current line a token is appended exactly when the running length plus one
separating space still fits in the width. -/
theorem wrap_width_bound (w : Nat) (items : List Item) (hw : 0 < w) :
    (∀ line ∈ wrap_text (some w) items,
        line.length ≤ w ∨ (line ∈ merged_words items ∧ w < line.length))
    ∧ (∀ (buf : List String) (n : Nat) (tok : String) (rest : List String), buf ≠ [] →
        wrapLinesGo w (tok :: rest) buf n =
          if n + 1 + tok.length ≤ w then wrapLinesGo w rest (buf ++ [tok]) (n + 1 + tok.length)
          else joinWords buf :: wrapLinesGo w rest [tok] tok.length) := by
  constructor
  · intro line hline
    have hb := wrapLinesGo_bound w (merged_words items) (merged_words items) [] 0
      (by intro t ht; simp at ht) (fun t ht => ht) (by simp [joinWords, joinWith])
      (by intro h; simp at h) line hline
    rcases hb with h | h
    · exact Or.inl h
    · by_cases hle : line.length ≤ w
      · exact Or.inl hle
      · exact Or.inr ⟨h, Nat.lt_of_not_le hle⟩
  · intro buf n tok rest hbuf
    rw [wrapLinesGo_cons, if_neg hbuf]
    by_cases hle : n + 1 + tok.length ≤ w
    · rw [if_pos hle, if_neg]
      rintro ⟨_, hgt⟩
      omega
    · rw [if_neg hle, if_pos ⟨hbuf, by omega⟩]

theorem wrap_width_bound_witness :
    0 < 5
    ∧ ("**bold**".length ≤ 5
        ∨ ("**bold**" ∈ merged_words [Item.plain "This is **bold** text."]
            ∧ 5 < "**bold**".length)) :=
  ⟨by decide,
    (wrap_width_bound 5 [Item.plain "This is **bold** text."] (by decide)).1
      "**bold**" (by decide)⟩

lemma setFirst_cons (f : WordInfo → WordInfo) (w : WordInfo) (t : List WordInfo) :
    setFirst f (w :: t) = f w :: t := rfl

lemma setLast_ne_nil (f : WordInfo → WordInfo) (L : List WordInfo) (h : L ≠ []) :
    setLast f L ≠ [] := by
  match L, h with
  | [w], _ => simp [setLast]
  | w :: x :: t, _ => simp [setLast]

lemma setFirst_ne_nil (f : WordInfo → WordInfo) (L : List WordInfo) (h : L ≠ []) :
    setFirst f L ≠ [] := by
  match L, h with
  | w :: t, _ => simp [setFirst]

lemma setFirst_headD (f : WordInfo → WordInfo) (L : List WordInfo) (d : WordInfo)
    (h : L ≠ []) : (setFirst f L).headD d = f (L.headD d) := by
  match L, h with
  | w :: t, _ => rfl

lemma setLast_getLastD (f : WordInfo → WordInfo) :
    ∀ (L : List WordInfo) (d : WordInfo), L ≠ [] →
      (setLast f L).getLastD d = f (L.getLastD d) := by
  intro L
  induction L with
  | nil => intro d h; exact absurd rfl h
  | cons w t ih =>
    intro d h
    cases t with
    | nil => rfl
    | cons x t2 =>
      show (w :: setLast f (x :: t2)).getLastD d = f ((w :: x :: t2).getLastD d)
      rw [List.getLastD_cons, List.getLastD_cons]
      exact ih w (by simp)

lemma setLast_headD_sp (f : WordInfo → WordInfo)
    (hf : ∀ w, (f w).start_punct = w.start_punct) (L : List WordInfo) (d : WordInfo) :
    ((setLast f L).headD d).start_punct = (L.headD d).start_punct := by
  match L with
  | [] => rfl
  | [w] => exact hf w
  | w :: x :: t => rfl

lemma setFirst_getLastD_ep (f : WordInfo → WordInfo)
    (hf : ∀ w, (f w).end_punct = w.end_punct) (L : List WordInfo) (d : WordInfo) :
    ((setFirst f L).getLastD d).end_punct = (L.getLastD d).end_punct := by
  match L with
  | [] => rfl
  | [w] => exact hf w
  | w :: x :: t => simp [setFirst, List.getLastD_cons]

lemma setLast_getLastD_ep (f : WordInfo → WordInfo)
    (hf : ∀ w, (f w).end_punct = w.end_punct) :
    ∀ (L : List WordInfo) (d : WordInfo),
      ((setLast f L).getLastD d).end_punct = (L.getLastD d).end_punct := by
  intro L
  induction L with
  | nil => intro d; rfl
  | cons w t ih =>
    intro d
    cases t with
    | nil => exact hf w
    | cons x t2 =>
      show ((w :: setLast f (x :: t2)).getLastD d).end_punct = _
      rw [List.getLastD_cons, List.getLastD_cons]
      exact ih w

lemma pySplitAux_eq_nil :
    ∀ (l cur : List Char), pySplitAux l cur = [] →
      cur = [] ∧ ∀ c ∈ l, isPySpace c = true := by
  intro l
  induction l with
  | nil =>
    intro cur h
    unfold pySplitAux at h
    by_cases hc : cur.isEmpty
    · exact ⟨List.isEmpty_iff.1 hc, by intro c hc2; simp at hc2⟩
    · rw [if_neg hc] at h; exact absurd h (by simp)
  | cons c rest ih =>
    intro cur h
    unfold pySplitAux at h
    by_cases hc : isPySpace c
    · rw [if_pos hc] at h
      by_cases hcur : cur.isEmpty
      · rw [if_pos hcur] at h
        obtain ⟨-, hall⟩ := ih [] h
        refine ⟨List.isEmpty_iff.1 hcur, ?_⟩
        intro x hx
        rcases List.mem_cons.1 hx with hx | hx
        · rw [hx]; exact hc
        · exact hall x hx
      · rw [if_neg hcur] at h; exact absurd h (by simp)
    · rw [if_neg hc] at h
      obtain ⟨hcc, -⟩ := ih (c :: cur) h
      exact absurd hcc (by simp)

lemma space_contains_post (c : Char) (h : isPySpace c = true) :
    post_markup_break_chars.contains c = true := by
  unfold isPySpace at h
  simp [space_chars, List.contains] at h
  simp [post_markup_break_chars, space_chars, List.contains]
  tauto

lemma space_contains_pre (c : Char) (h : isPySpace c = true) :
    pre_markup_break_chars.contains c = true := by
  unfold isPySpace at h
  simp [space_chars, List.contains] at h
  simp [pre_markup_break_chars, space_chars, List.contains]
  tauto

lemma toList_ne_nil_of_ne_empty (s : String) (hs : s ≠ "") : s.toList ≠ [] := by
  intro h
  apply hs
  obtain ⟨data⟩ := s
  have hd : data = [] := h
  subst hd
  rfl

lemma stageStartSpace_ne_nil (c0 : Char) (L : List WordInfo) (h : L ≠ []) :
    stageStartSpace c0 L ≠ [] := by
  unfold stageStartSpace; split_ifs
  · exact setFirst_ne_nil _ _ h
  · exact h

lemma stageEndSpace_ne_nil (cN : Char) (L : List WordInfo) (h : L ≠ []) :
    stageEndSpace cN L ≠ [] := by
  unfold stageEndSpace; split_ifs
  · exact setLast_ne_nil _ _ h
  · exact h

lemma stageStartPunct_ne_nil (c0 : Char) (L : List WordInfo) (h : L ≠ []) :
    stageStartPunct c0 L ≠ [] := by
  unfold stageStartPunct; split_ifs
  · exact setFirst_ne_nil _ _ h
  · exact h

lemma stageStartSpace_headD_sp (c0 : Char) (L : List WordInfo) (d : WordInfo) :
    ((stageStartSpace c0 L).headD d).start_punct = (L.headD d).start_punct := by
  unfold stageStartSpace
  split_ifs
  · match L with
    | [] => rfl
    | w :: t => rfl
  · rfl

lemma stageEndSpace_headD_sp (cN : Char) (L : List WordInfo) (d : WordInfo) :
    ((stageEndSpace cN L).headD d).start_punct = (L.headD d).start_punct := by
  unfold stageEndSpace
  split_ifs
  · exact setLast_headD_sp WordInfo.setEndSpace (fun w => rfl) L d
  · rfl

lemma stageStartPunct_headD_sp (c0 : Char) (L : List WordInfo) (d : WordInfo)
    (h : L ≠ []) :
    ((stageStartPunct c0 L).headD d).start_punct
      = (post_markup_break_chars.contains c0 || (L.headD d).start_punct) := by
  unfold stageStartPunct
  split_ifs with hc
  · rw [setFirst_headD _ _ _ h, hc]
    rfl
  · rw [Bool.not_eq_true] at hc
    rw [hc, Bool.false_or]

lemma stageEndPunct_headD_sp (cN : Char) (L : List WordInfo) (d : WordInfo) :
    ((stageEndPunct cN L).headD d).start_punct = (L.headD d).start_punct := by
  unfold stageEndPunct
  split_ifs
  · exact setLast_headD_sp WordInfo.setEndPunct (fun w => rfl) L d
  · rfl

lemma stageStartSpace_getLastD_ep (c0 : Char) (L : List WordInfo) (d : WordInfo) :
    ((stageStartSpace c0 L).getLastD d).end_punct = (L.getLastD d).end_punct := by
  unfold stageStartSpace
  split_ifs
  · exact setFirst_getLastD_ep WordInfo.setStartSpace (fun w => rfl) L d
  · rfl

lemma stageEndSpace_getLastD_ep (cN : Char) (L : List WordInfo) (d : WordInfo) :
    ((stageEndSpace cN L).getLastD d).end_punct = (L.getLastD d).end_punct := by
  unfold stageEndSpace
  split_ifs
  · exact setLast_getLastD_ep WordInfo.setEndSpace (fun w => rfl) L d
  · rfl

lemma stageStartPunct_getLastD_ep (c0 : Char) (L : List WordInfo) (d : WordInfo) :
    ((stageStartPunct c0 L).getLastD d).end_punct = (L.getLastD d).end_punct := by
  unfold stageStartPunct
  split_ifs
  · exact setFirst_getLastD_ep WordInfo.setStartPunct (fun w => rfl) L d
  · rfl

lemma stageEndPunct_getLastD_ep (cN : Char) (L : List WordInfo) (d : WordInfo)
    (h : L ≠ []) :
    ((stageEndPunct cN L).getLastD d).end_punct
      = (pre_markup_break_chars.contains cN || (L.getLastD d).end_punct) := by
  unfold stageEndPunct
  split_ifs with hc
  · rw [setLast_getLastD _ _ _ h, hc]
    rfl
  · rw [Bool.not_eq_true] at hc
    rw [hc, Bool.false_or]

lemma applyBoundaryFlags_headD_sp (c0 cN : Char) (L : List WordInfo) (d : WordInfo)
    (h : L ≠ []) :
    ((applyBoundaryFlags c0 cN L).headD d).start_punct
      = (post_markup_break_chars.contains c0 || (L.headD d).start_punct) := by
  unfold applyBoundaryFlags
  rw [stageEndPunct_headD_sp,
      stageStartPunct_headD_sp _ _ _ (stageEndSpace_ne_nil _ _ (stageStartSpace_ne_nil _ _ h)),
      stageEndSpace_headD_sp, stageStartSpace_headD_sp]

lemma applyBoundaryFlags_getLastD_ep (c0 cN : Char) (L : List WordInfo) (d : WordInfo)
    (h : L ≠ []) :
    ((applyBoundaryFlags c0 cN L).getLastD d).end_punct
      = (pre_markup_break_chars.contains cN || (L.getLastD d).end_punct) := by
  unfold applyBoundaryFlags
  rw [stageEndPunct_getLastD_ep _ _ _
        (stageStartPunct_ne_nil _ _ (stageEndSpace_ne_nil _ _ (stageStartSpace_ne_nil _ _ h))),
      stageStartPunct_getLastD_ep, stageEndSpace_getLastD_ep, stageStartSpace_getLastD_ep]

lemma split_words_start_punct (s : String) (hs : s ≠ "") :
    ((split_words (.plain s)).headD dummyWord).start_punct
      = post_markup_break_chars.contains (s.toList.headD ' ') := by
  have hnl := toList_ne_nil_of_ne_empty s hs
  simp only [split_words, if_neg hs]
  cases h0 : pySplit s with
  | nil =>
    have hspace : ∀ c ∈ s.toList, isPySpace c = true := (pySplitAux_eq_nil s.toList [] h0).2
    have hc0 : isPySpace (s.toList.headD ' ') = true := by
      apply hspace
      match s.toList, hnl with
      | c :: t, _ => simp
    have hpost := space_contains_post _ hc0
    rw [List.map_nil, if_pos rfl,
        applyBoundaryFlags_headD_sp _ _ _ _ (by simp), hpost]
    rfl
  | cons w tws =>
    rw [List.map_cons, if_neg (by simp),
        applyBoundaryFlags_headD_sp _ _ _ _ (by simp)]
    simp

lemma split_words_end_punct (s : String) (hs : s ≠ "") :
    ((split_words (.plain s)).getLastD dummyWord).end_punct
      = pre_markup_break_chars.contains (s.toList.getLastD ' ') := by
  have hnl := toList_ne_nil_of_ne_empty s hs
  simp only [split_words, if_neg hs]
  cases h0 : pySplit s with
  | nil =>
    have hspace : ∀ c ∈ s.toList, isPySpace c = true := (pySplitAux_eq_nil s.toList [] h0).2
    have hcN : isPySpace (s.toList.getLastD ' ') = true := by
      apply hspace
      match s.toList, hnl with
      | c :: t, _ =>
        rw [List.getLastD_cons]
        exact List.getLastD_mem_cons t c
    have hpre := space_contains_pre _ hcN
    rw [List.map_nil, if_pos rfl,
        applyBoundaryFlags_getLastD_ep _ _ _ _ (by simp), hpre]
    rfl
  | cons w tws =>
    rw [List.map_cons, if_neg (by simp),
        applyBoundaryFlags_getLastD_ep _ _ _ _ (by simp)]
    have hlast : (((⟨w, false, false, false, false, false⟩ : WordInfo))
        :: tws.map (fun t => (⟨t, false, false, false, false, false⟩ : WordInfo))).getLastD dummyWord
        ∈ ((⟨w, false, false, false, false, false⟩ : WordInfo))
        :: tws.map (fun t => (⟨t, false, false, false, false, false⟩ : WordInfo)) := by
      rw [List.getLastD_cons]
      exact List.getLastD_mem_cons _ _
    have hep : ((((⟨w, false, false, false, false, false⟩ : WordInfo))
        :: tws.map (fun t => (⟨t, false, false, false, false, false⟩ : WordInfo))).getLastD dummyWord).end_punct = false := by
      rcases List.mem_cons.1 hlast with h | h
      · rw [h]
      · obtain ⟨u, -, hu⟩ := List.mem_map.1 h
        rw [← hu]
    rw [hep, Bool.or_false]

/-- C7 counterexample: `'('` is in `pre_markup_break_chars` but not in
`post_markup_break_chars`, so when the non-markup word `"("` precedes the
markup word `"*x*"` the merge consults the PRE set (no escape inserted:
the merged token is `"(*x*"`), while the claim's set choice (POST set for
a preceding non-markup word) would demand the escaped form `"(\ *x*"`. -/
theorem span_merge_adjacency_cex :
    merged_words [Item.plain "(", Item.markup "*x*"] = ["(*x*"]
    ∧ post_markup_break_chars.contains '(' = false
    ∧ pre_markup_break_chars.contains '(' = true
    ∧ merged_words [Item.plain "(", Item.markup "*x*"] ≠ ["(\\ *x*"] := by
  refine ⟨by decide, by decide, by decide, by decide⟩

/-- C7 (amended): a markup word and a non-markup word adjacent with no
intervening whitespace merge into a single token; the zero-width escaped
space `"\ "` goes between them exactly when the adjoining boundary flag
of the non-markup word is unset, and that flag records membership of the
fragment's boundary character in `pre_markup_break_chars` for a word
that precedes markup (its `end_punct`) and in `post_markup_break_chars`
for a word that follows markup (its `start_punct`). -/
theorem span_merge_adjacency (last word : WordInfo) (rest : List WordInfo) (s : String)
    (hs : s ≠ "") :
    (last.in_markup = false → word.in_markup = true → last.end_space = false →
      mergeStep (last :: rest) word =
        ⟨last.text ++ (if last.end_punct then "" else "\\ ") ++ word.text,
          true, false, false, false, false⟩ :: rest)
    ∧ (last.in_markup = true → word.in_markup = false → word.start_space = false →
      mergeStep (last :: rest) word =
        ⟨last.text ++ (if word.start_punct then "" else "\\ ") ++ word.text,
          false, false, word.end_space, word.start_punct, word.end_punct⟩ :: rest)
    ∧ ((split_words (.plain s)).getLastD dummyWord).end_punct
        = pre_markup_break_chars.contains (s.toList.getLastD ' ')
    ∧ ((split_words (.plain s)).headD dummyWord).start_punct
        = post_markup_break_chars.contains (s.toList.headD ' ') := by
  refine ⟨?_, ?_, split_words_end_punct s hs, split_words_start_punct s hs⟩
  · intro h1 h2 h3
    simp [mergeStep, h1, h2, h3]
  · intro h1 h2 h3
    simp [mergeStep, h1, h2, h3]

theorem span_merge_adjacency_witness :
    mergeStep [⟨"(", false, false, false, false, true⟩]
        ⟨"*x*", true, false, false, false, false⟩
      = [⟨"(*x*", true, false, false, false, false⟩]
    ∧ ((split_words (.plain "(")).getLastD dummyWord).end_punct
        = pre_markup_break_chars.contains '(' := by
  have h := span_merge_adjacency ⟨"(", false, false, false, false, true⟩
    ⟨"*x*", true, false, false, false, false⟩ [] "(" (by decide)
  constructor
  · have h1 := h.1 rfl rfl rfl
    rw [h1]
    decide
  · have h3 := h.2.2.1
    rw [h3]
    decide

/-- C3 counterexample: the spec's own example is inconsistent with its
rule: a reference with title `"example"` and URI `"http://example"` does
NOT satisfy `uri == title` (nor the mailto form), so it renders as the
angle-bracket form, not as the claimed bare shorthand `example_`. -/
theorem reference_bare_shorthand_cex :
    fmt (.reference (some "http://example") true false [.text "example"])
        ⟨0, none, none, none⟩
      = some [.markup "`example <http://example>`_"]
    ∧ (some [Item.markup "`example <http://example>`_"] ≠ some [Item.markup "example_"])
    ∧ (some [Item.markup "`example <http://example>`_"] ≠ some [Item.markup "example"]) := by
  refine ⟨?_, by decide, by decide⟩
  simp [fmt, fmtEach]
  decide

/-- C3 (amended): a reference carrying a URI renders as the bare title
(standalone hyperlink shorthand) exactly when the URI equals the title
or `"mailto:" ++ title`; otherwise it renders as
`` `title <uri>` `` followed by `"_"` (a target back-reference is
attached) or `"__"` (anonymous).  In particular title `"example"` with
URI `"http://example"` takes the second form; only a title equal to its
URI (e.g. both `"http://example"`) renders bare. -/
theorem reference_bare_shorthand (uri : String) (tgt anon : Bool) (cs : List Node)
    (ctx : FormatContext) (title : String)
    (ht : titleJoin cs ctx = some title) :
    ((fmt (.reference (some uri) tgt anon cs) ctx = some [.markup title])
        ↔ (uri = title ∨ uri = "mailto:" ++ title))
    ∧ (¬(uri = title ∨ uri = "mailto:" ++ title) →
        fmt (.reference (some uri) tgt anon cs) ctx
          = some [.markup ("`" ++ title ++ " <" ++ uri ++ ">`"
              ++ (if tgt then "_" else "__"))]) := by
  obtain ⟨itemss, hits, htitle⟩ := Option.map_eq_some'.1 ht
  have hfmt : fmt (.reference (some uri) tgt anon cs) ctx =
      if uri = title ∨ uri = "mailto:" ++ title then some [.markup title]
      else some [.markup ("`" ++ title ++ " <" ++ uri ++ ">`"
        ++ (if tgt then "_" else "__"))] := by
    simp only [fmt, hits, Option.bind_eq_bind', Option.some_bind]
    rw [htitle]
    cases tgt <;> simp
  constructor
  · constructor
    · intro heq
      by_contra hn
      rw [hfmt, if_neg hn] at heq
      simp at heq
      have hlen := congrArg String.length heq
      simp only [String.length_append] at hlen
      have e1 : ("`" : String).length = 1 := rfl
      have e2 : (" <" : String).length = 2 := rfl
      have e3 : (">`" : String).length = 2 := rfl
      rw [e1, e2, e3] at hlen
      omega
    · intro hcond
      rw [hfmt, if_pos hcond]
  · intro hn
    rw [hfmt, if_neg hn]

theorem reference_bare_shorthand_witness :
    fmt (.reference (some "http://example") true false [.text "http://example"])
        ⟨0, none, none, none⟩
      = some [.markup "http://example"] := by
  have h := reference_bare_shorthand "http://example" true false [.text "http://example"]
    ⟨0, none, none, none⟩ "http://example"
    (by simp [titleJoin, fmtEach, fmt]; decide)
  exact h.1.mpr (Or.inl rfl)

/-- C4 counterexample: at section depth 7 the title formatter indexes
`section_chars[6]` past the end of the six-character sequence, raising an
IndexError (modelled as `none`): there is no cyclic wraparound and no
two-line output. -/
theorem title_underline_depth_cex :
    fmt (.title [.text "T"]) ⟨7, none, none, none⟩ = none := by
  simp [fmt, fmtEach, pyIndex, section_chars]

lemma pyIndex_section_chars (d : Nat) (h1 : 1 ≤ d) (h6 : d ≤ 6) :
    pyIndex section_chars ((d : Int) - 1) = some (section_chars.getD (d - 1) ' ') := by
  interval_cases d <;> decide

/-- C4 (amended): a title at section depth `1 ≤ d ≤ 6` renders as exactly
two lines, the joined single-line title text followed by a same-length
underline of `section_chars[d - 1]`; for `d > 6` the formatter fails
with an IndexError instead of cycling. -/
theorem title_underline_depth (cs : List Node) (ctx : FormatContext) (text : String)
    (ht : titleJoin cs ctx = some text)
    (h1 : 1 ≤ ctx.section_depth) (h6 : ctx.section_depth ≤ 6) :
    fmt (.title cs) ctx =
      some [.plain text,
        .plain (String.mk (List.replicate text.length
          (section_chars.getD (ctx.section_depth - 1) ' ')))] := by
  obtain ⟨itemss, hits, htext⟩ := Option.map_eq_some'.1 ht
  simp only [fmt, hits, Option.bind_eq_bind', Option.some_bind]
  rw [pyIndex_section_chars _ h1 h6]
  simp only [Option.some_bind]
  rw [htext]
  rfl

theorem title_underline_depth_witness :
    fmt (.title [.text "Example"]) ⟨1, none, none, none⟩
      = some [.plain "Example", .plain "======="] := by
  have h := title_underline_depth [.text "Example"] ⟨1, none, none, none⟩ "Example"
    (by simp [titleJoin, fmtEach, fmt]; decide) (by decide) (by decide)
  rw [h]
  decide

lemma getD_map_lt (f : α → β) :
    ∀ (l : List α) (j : Nat), j < l.length → ∀ (d : β) (d' : α),
      (l.map f).getD j d = f (l.getD j d') := by
  intro l
  induction l with
  | nil => intro j hj; simp at hj
  | cons x t ih =>
    intro j hj d d'
    cases j with
    | zero => rfl
    | succ j2 =>
      simp only [List.map_cons, List.getD_cons_succ]
      exact ih j2 (by simpa using hj) d d'

lemma enum_first_length (l : List α) : (enum_first l).length = l.length := by
  cases l <;> simp [enum_first]

lemma enum_first_getD (l : List α) (j : Nat) (hj : j < l.length) (d : α) (p : Bool × α) :
    (enum_first l).getD j p = (decide (j = 0), l.getD j d) := by
  cases l with
  | nil => simp at hj
  | cons x t =>
    cases j with
    | zero => simp [enum_first]
    | succ j2 =>
      simp only [enum_first, List.getD_cons_succ]
      rw [getD_map_lt _ t j2 (by simpa using hj) _ d]
      simp

/-- C5 counterexample: a list item holding two paragraphs renders its
blank separator line unindented (`""`), so not every continuation line
of the item carries the `len(bullet)+1`-space indent; here the bullet is
`"- "` so the claimed indent would be three spaces. -/
theorem list_item_prefixes_cex :
    fmt (.list_item [.paragraph [.text "a"], .paragraph [.text "b"]])
        ⟨0, none, some "- ", none⟩
      = some [.plain "-  a", .plain "", .plain "   b"]
    ∧ List.isPrefixOf (spacesStr 3).data ("" : String).data = false := by
  constructor
  · simp [fmt, fmtEach]
    decide
  · decide

/-- C5 (amended): a list item rendered with bullet `b` produces one
output line per underlying content line: the first line, when non-empty,
is prefixed with `b ++ " "`; every later non-empty line is indented by
exactly `len(b)+1` spaces; empty lines (such as blank separators between
the item's blocks) pass through unchanged. -/
theorem list_item_prefixes (cs : List Node) (ctx : FormatContext) (b : String)
    (lines : List String)
    (hb : ctx.bullet = some b)
    (hl : listItemLines cs ctx b = some lines) :
    let out := (enum_first lines).map (fun p =>
      (if p.2 ≠ "" then (if p.1 then b ++ " " else spacesStr (b.length + 1)) else "") ++ p.2)
    fmt (.list_item cs) ctx = some (out.map Item.plain)
    ∧ out.length = lines.length
    ∧ ∀ j, j < lines.length →
        out.getD j "" = (if lines.getD j "" = "" then ""
          else (if j = 0 then b ++ " " else spacesStr (b.length + 1)) ++ lines.getD j "") := by
  intro out
  obtain ⟨itemss, hits, hmap⟩ := Option.bind_eq_some.1 hl
  refine ⟨?_, ?_, ?_⟩
  · simp only [fmt, hb, Option.bind_eq_bind', Option.some_bind, hits, hmap]
    simp [out, List.map_map]
  · simp [out, enum_first_length]
  · intro j hj
    have hout : out.getD j "" = (fun p : Bool × String =>
        (if p.2 ≠ "" then (if p.1 then b ++ " " else spacesStr (b.length + 1)) else "") ++ p.2)
          ((enum_first lines).getD j (true, "")) := by
      apply getD_map_lt
      rw [enum_first_length]
      exact hj
    rw [hout, enum_first_getD lines j hj ""]
    simp only [decide_eq_true_eq]
    by_cases he : lines.getD j "" = ""
    · rw [if_neg (not_not_intro he), if_pos he, he]
      rfl
    · rw [if_pos he, if_neg he]

theorem list_item_prefixes_witness :
    (let out := (enum_first ["a", "", "b"]).map (fun p =>
      (if p.2 ≠ "" then (if p.1 then "- " ++ " " else spacesStr ("- ".length + 1)) else "") ++ p.2)
    fmt (.list_item [.paragraph [.text "a"], .paragraph [.text "b"]])
        ⟨0, none, some "- ", none⟩ = some (out.map Item.plain)
    ∧ out.length = (["a", "", "b"] : List String).length
    ∧ ∀ j, j < (["a", "", "b"] : List String).length →
        out.getD j "" = (if (["a", "", "b"] : List String).getD j "" = "" then ""
          else (if j = 0 then "- " ++ " " else spacesStr ("- ".length + 1))
            ++ (["a", "", "b"] : List String).getD j "")) :=
  list_item_prefixes [.paragraph [.text "a"], .paragraph [.text "b"]]
    ⟨0, none, some "- ", none⟩ "- " ["a", "", "b"] rfl
    (by simp [listItemLines, fmtEach, fmt]; decide)

lemma countChar_append (c : Char) (a b : String) :
    countChar c (a ++ b) = countChar c a + countChar c b := by
  unfold countChar
  rw [String.data_append, List.count_append]

lemma spacesStr_length (n : Nat) : (spacesStr n).length = n := by
  simp [spacesStr, String.length]

lemma countChar_spacesStr (c : Char) (n : Nat) (h : c ≠ ' ') :
    countChar c (spacesStr n) = 0 := by
  unfold countChar spacesStr
  exact List.count_eq_zero.2 (fun hm => h (List.eq_of_mem_replicate hm))

lemma countChar_replicate (c ch : Char) (w : Nat) (h : c ≠ ch) :
    countChar c (String.mk (List.replicate w ch)) = 0 := by
  unfold countChar
  exact List.count_eq_zero.2 (fun hm => h (List.eq_of_mem_replicate hm))

lemma joinWith_length_sep1 (sep : String) (hsep : sep.length = 1) :
    ∀ l : List String, l ≠ [] →
      (joinWith sep l).length = (l.map String.length).sum + (l.length - 1) := by
  intro l
  induction l with
  | nil => intro h; exact absurd rfl h
  | cons a t ih =>
    intro _
    cases t with
    | nil => simp [joinWith]
    | cons b t2 =>
      rw [joinWith_cons_cons, String.length_append, String.length_append,
        ih (by simp), hsep]
      simp only [List.map_cons, List.sum_cons, List.length_cons]
      omega

lemma joinWith_count_sep1 (c : Char) (sep : String) (hsep : countChar c sep = 1) :
    ∀ l : List String, l ≠ [] →
      countChar c (joinWith sep l) = (l.map (countChar c)).sum + (l.length - 1) := by
  intro l
  induction l with
  | nil => intro h; exact absurd rfl h
  | cons a t ih =>
    intro _
    cases t with
    | nil => simp [joinWith]
    | cons b t2 =>
      rw [joinWith_cons_cons, countChar_append, countChar_append,
        ih (by simp), hsep]
      simp only [List.map_cons, List.sum_cons, List.length_cons]
      omega

lemma sum_map_succ (ws : List Nat) : (ws.map (· + 1)).sum = ws.sum + ws.length := by
  induction ws with
  | nil => rfl
  | cons w t ih => simp only [List.map_cons, List.sum_cons, List.length_cons, ih]; omega

lemma getD_mem_or_eq : ∀ (l : List α) (j : Nat) (d : α), l.getD j d ∈ l ∨ l.getD j d = d := by
  intro l
  induction l with
  | nil => intro j d; right; cases j <;> rfl
  | cons x t ih =>
    intro j d
    cases j with
    | zero => left; simp
    | succ j2 =>
      rw [List.getD_cons_succ]
      rcases ih j2 d with h | h
      · left; exact List.mem_cons_of_mem x h
      · right; exact h

lemma borderSep_geometry (ch : Char) (hch : ch ≠ '+') (ws : List Nat) (hne : ws ≠ []) :
    (borderSep ch ws).length = 1 + (ws.map (· + 1)).sum
    ∧ countChar '+' (borderSep ch ws) = ws.length + 1 := by
  have hmapne : ws.map (fun w => String.mk (List.replicate w ch)) ≠ [] := by
    simp [hne]
  have hlenmap : (ws.map (fun w => String.mk (List.replicate w ch))).map String.length = ws := by
    rw [List.map_map]
    have : (String.length ∘ fun w => String.mk (List.replicate w ch)) = id := by
      funext w
      simp [String.length]
    rw [this, List.map_id]
  have hpos : 1 ≤ ws.length := List.length_pos.2 hne
  constructor
  · unfold borderSep
    rw [String.length_append, String.length_append,
      joinWith_length_sep1 "+" rfl _ hmapne, hlenmap, sum_map_succ]
    have e1 : ("+" : String).length = 1 := rfl
    rw [e1]
    simp only [List.length_map]
    omega
  · unfold borderSep
    rw [countChar_append, countChar_append,
      joinWith_count_sep1 '+' "+" (by decide) _ hmapne]
    have hz : ((ws.map (fun w => String.mk (List.replicate w ch))).map (countChar '+')).sum = 0 := by
      apply List.sum_eq_zero
      intro x hx
      obtain ⟨s, hs, hxs⟩ := List.mem_map.1 hx
      obtain ⟨w, -, hws⟩ := List.mem_map.1 hs
      rw [← hxs, ← hws]
      exact countChar_replicate '+' ch w (Ne.symm hch)
    rw [hz]
    have h1 : countChar '+' "+" = 1 := by decide
    rw [h1]
    simp only [List.length_map]
    have hlm : (ws.map (fun w => String.mk (List.replicate w ch))).length = ws.length :=
      List.length_map ws _
    simp only [List.length_map] at hlm
    omega

lemma rowLine_geometry (ws : List Nat) (g : List String)
    (hlen : g.length = ws.length) (hne : ws ≠ [])
    (h2 : ∀ w ∈ ws, 2 ≤ w)
    (hfit : ∀ p ∈ g.zip ws, String.length p.1 ≤ p.2 - 2) :
    (rowLine ws g).length = 1 + (ws.map (· + 1)).sum
    ∧ ((∀ p ∈ g.zip ws, countChar '|' p.1 = 0) →
        countChar '|' (rowLine ws g) = ws.length + 1) := by
  have hzlen : (g.zip ws).length = ws.length := by
    rw [List.length_zip, hlen, Nat.min_self]
  have hsegne : (g.zip ws).map (fun p => " " ++ ljust (p.2 - 2) p.1 ++ " ") ≠ [] := by
    intro h
    have := congrArg List.length h
    simp [hzlen] at this
    exact hne this
  have hseglen : ∀ p ∈ g.zip ws,
      String.length (" " ++ ljust (p.2 - 2) p.1 ++ " ") = p.2 := by
    intro p hp
    have hw : p.2 ∈ ws := (List.of_mem_zip hp).2
    have h2w := h2 p.2 hw
    have hf := hfit p hp
    rw [String.length_append, String.length_append]
    unfold ljust
    rw [String.length_append, spacesStr_length]
    have e1 : (" " : String).length = 1 := rfl
    rw [e1]
    omega
  constructor
  · unfold rowLine
    rw [String.length_append, String.length_append,
      joinWith_length_sep1 "|" rfl _ hsegne]
    have hsum : (((g.zip ws).map (fun p => " " ++ ljust (p.2 - 2) p.1 ++ " ")).map
        String.length).sum = ws.sum := by
      rw [List.map_map]
      have hcong : (g.zip ws).map (String.length ∘ fun p => " " ++ ljust (p.2 - 2) p.1 ++ " ")
          = (g.zip ws).map (fun p => p.2) := by
        apply List.map_congr_left
        intro p hp
        exact hseglen p hp
      rw [hcong]
      have := List.map_snd_zip g ws (by omega)
      rw [show (fun p : String × Nat => p.2) = Prod.snd from rfl, this]
    rw [hsum]
    have hpos : 1 ≤ ws.length := List.length_pos.2 hne
    simp only [List.length_map, hzlen, sum_map_succ]
    have e1 : ("|" : String).length = 1 := rfl
    rw [e1]
    omega
  · intro hpipe
    unfold rowLine
    rw [countChar_append, countChar_append,
      joinWith_count_sep1 '|' "|" (by decide) _ hsegne]
    have hz : (((g.zip ws).map (fun p => " " ++ ljust (p.2 - 2) p.1 ++ " ")).map
        (countChar '|')).sum = 0 := by
      apply List.sum_eq_zero
      intro x hx
      obtain ⟨s, hs, hxs⟩ := List.mem_map.1 hx
      obtain ⟨p, hp, hps⟩ := List.mem_map.1 hs
      rw [← hxs, ← hps]
      rw [countChar_append, countChar_append]
      unfold ljust
      rw [countChar_append]
      have hsp : countChar '|' " " = 0 := by decide
      rw [hsp, countChar_spacesStr '|' _ (by decide), hpipe p hp]
      rfl
    rw [hz]
    have hpos : 1 ≤ ws.length := List.length_pos.2 hne
    have h1 : countChar '|' "|" = 1 := by decide
    rw [h1]
    simp only [List.length_map, hzlen]
    omega

/-- C6 counterexample: a cell whose content exceeds its declared column
width renders a segment wider than declared (the accepted malformed-table
limitation), so the claimed exact geometry fails: with `colwidths = [3]`
the claimed line length is `1 + (3+1) = 5`, but the rendered line is
`"| abcdef |"` of length 10. -/
theorem table_geometry_cex :
    fmt (.row [.entry [.paragraph [.text "abcdef"]]]) ⟨0, none, none, some [3]⟩
      = some [.plain "| abcdef |"]
    ∧ ("| abcdef |" : String).length ≠ 1 + ((([3] : List Nat)).map (· + 1)).sum := by
  constructor
  · simp [fmt, fmtEach, fmtCells, Node.children]
    decide
  · decide

/-- C6 (amended): for a row whose entries match the nonempty declared
column widths, all of them at least 2, and whose rendered cell lines all
fit within `colwidths[i] - 2`, the output is one line per longest-cell
line group (`zip_longest`, shorter cells padded with blanks): each line
is `|`-delimited with every column segment exactly `colwidths[i]` wide
(content left-justified at `colwidths[i] - 2`), so each line has length
`1 + Σ (colwidths[i] + 1)` and, when no cell content contains `'|'`,
exactly `len(colwidths) + 1` boundary characters; border lines built
from the same widths likewise have exactly `len(colwidths) + 1` `'+'`
characters.  When some cell overflows its declared width the segment is
wider than declared (see the counterexample). -/
theorem table_geometry (entries : List Node) (ws : List Nat) (ctx : FormatContext)
    (cells : List (List String))
    (hws : ctx.colwidths = some ws) (hne : ws ≠ [])
    (hcells : fmtCells entries ws ctx = some cells)
    (hlen : cells.length = ws.length)
    (h2 : ∀ w ∈ ws, 2 ≤ w)
    (hfit : ∀ p ∈ cells.zip ws, ∀ l ∈ p.1, String.length l ≤ p.2 - 2) :
    fmt (.row entries) ctx
      = some ((zipLongestDefault cells).map (fun g => .plain (rowLine ws g)))
    ∧ (borderSep '-' ws).length = 1 + (ws.map (· + 1)).sum
    ∧ countChar '+' (borderSep '-' ws) = ws.length + 1
    ∧ countChar '+' (borderSep '=' ws) = ws.length + 1
    ∧ (∀ g ∈ zipLongestDefault cells,
        (rowLine ws g).length = 1 + (ws.map (· + 1)).sum
        ∧ ((∀ p ∈ cells.zip ws, ∀ l ∈ p.1, countChar '|' l = 0) →
            countChar '|' (rowLine ws g) = ws.length + 1)) := by
  refine ⟨?_, (borderSep_geometry '-' (by decide) ws hne).1,
    (borderSep_geometry '-' (by decide) ws hne).2,
    (borderSep_geometry '=' (by decide) ws hne).2, ?_⟩
  · simp only [fmt, hws, Option.bind_eq_bind', Option.some_bind, hcells]
    rfl
  · intro g hg
    unfold zipLongestDefault at hg
    obtain ⟨j, -, hgj⟩ := List.mem_map.1 hg
    have hglen : g.length = ws.length := by
      rw [← hgj, List.length_map]
      exact hlen
    have hgzip : g.zip ws = (cells.zip ws).map
        (Prod.map (fun ls => ls.getD j "") id) := by
      rw [← hgj, List.zip_map_left]
    have hgfit : ∀ p ∈ g.zip ws, String.length p.1 ≤ p.2 - 2 := by
      intro p hp
      rw [hgzip] at hp
      obtain ⟨q, hq, hqp⟩ := List.mem_map.1 hp
      obtain ⟨q1, q2⟩ := q
      rcases getD_mem_or_eq q1 j "" with hmem | hdef
      · have hres := hfit ⟨q1, q2⟩ hq _ hmem
        rw [← hqp]
        exact hres
      · rw [← hqp]
        show (q1.getD j "").length ≤ q2 - 2
        rw [hdef]
        exact Nat.zero_le _
    have hres := rowLine_geometry ws g hglen hne h2 hgfit
    refine ⟨hres.1, ?_⟩
    intro hpipe
    apply hres.2
    intro p hp
    rw [hgzip] at hp
    obtain ⟨q, hq, hqp⟩ := List.mem_map.1 hp
    obtain ⟨q1, q2⟩ := q
    rcases getD_mem_or_eq q1 j "" with hmem | hdef
    · have hres2 := hpipe ⟨q1, q2⟩ hq _ hmem
      rw [← hqp]
      exact hres2
    · rw [← hqp]
      show countChar '|' (q1.getD j "") = 0
      rw [hdef]
      decide

theorem table_geometry_witness :
    fmt (.row [.entry [.paragraph [.text "ab"]], .entry [.paragraph [.text "c"]]])
        ⟨0, none, none, some [4, 3]⟩
      = some ((zipLongestDefault [["ab"], ["c"]]).map (fun g => .plain (rowLine [4, 3] g)))
    ∧ countChar '+' (borderSep '-' [4, 3]) = ([4, 3] : List Nat).length + 1 := by
  have h := table_geometry [.entry [.paragraph [.text "ab"]], .entry [.paragraph [.text "c"]]]
    [4, 3] ⟨0, none, none, some [4, 3]⟩ [["ab"], ["c"]] rfl (by decide)
    (by simp [fmtCells, fmtEach, fmt, Node.children]; decide)
    (by decide) (by decide) (by decide)
  exact ⟨h.1, h.2.2.1⟩

end Rstfmt
